import Mathlib

/-! # xv6 static configuration: `param.h` and `mmu.h`

The two headers consist of object-like preprocessor definitions.

* `param.h` is embedded at token level (`param_h`): every `#define` line is a
  name with its replacement token list, and the `#ifdef PDX_XV6` block is kept as
  conditional directives.  A use of a name is expanded textually and the resulting
  constant expression is evaluated with C operator precedence, so the effect of
  the parentheses in `(MAXOPBLOCKS*3)` is part of the model.
* `mmu.h` has neither conditionals nor nested definitions; its six constants are
  embedded directly as natural numbers.
-/

namespace Xv6

/-! ## Tokens and directives -/

/-- Preprocessing tokens occurring in the header and in constant expressions that
use its names. -/
inductive Tok where
  | num (n : Nat)
  | ident (s : String)
  | star
  | slash
  | plus
  | lparen
  | rparen
  deriving DecidableEq, Repr

/-- Header lines: the directives used by `param.h`. -/
inductive Directive where
  | define (name : String) (body : List Tok)
  | ifdef (name : String)
  | else_
  | endif
  deriving DecidableEq, Repr

open Tok Directive

/-- The text of `param.h`, line by line (comments dropped). -/
def param_h : List Directive :=
  [ define "NPROC"             [num 64],
    define "KERNEL_STACK_SIZE" [num 16384],
    define "NCPU"              [num 8],
    define "NOFILE"            [num 16],
    define "NFILE"             [num 100],
    define "NINODE"            [num 50],
    define "NDEV"              [num 10],
    define "ROOTDEV"           [num 1],
    define "MAXARG"            [num 32],
    define "MAXOPBLOCKS"       [num 10],
    define "LOGSIZE"           [lparen, ident "MAXOPBLOCKS", star, num 3, rparen],
    define "NBUF"              [lparen, ident "MAXOPBLOCKS", star, num 3, rparen],
    ifdef "PDX_XV6",
    define "FSSIZE"            [num 2000],
    else_,
    define "FSSIZE"            [num 1000],
    endif ]

/-! ## Preprocessor -/

/-- Definition table, most recent definition first. -/
abbrev Table := List (String × List Tok)

/-- Preprocessor state: the definitions seen so far and the stack of enclosing
conditionals (innermost first; `true` when the current branch is compiled). -/
structure PPState where
  defs : Table
  conds : List Bool
  deriving DecidableEq, Repr

/-- A line is compiled when every enclosing conditional branch is. -/
def PPState.active (s : PPState) : Bool := s.conds.all id

/-- Process one directive; `none` is an unbalanced `#else` or `#endif`. -/
def directive (s : PPState) : Directive → Option PPState
  | define name body =>
      some (if s.active then ⟨(name, body) :: s.defs, s.conds⟩ else s)
  | ifdef name => some ⟨s.defs, (s.defs.lookup name).isSome :: s.conds⟩
  | else_ =>
      match s.conds with
      | c :: cs => some ⟨s.defs, (!c) :: cs⟩
      | [] => none
  | endif =>
      match s.conds with
      | _ :: cs => some ⟨s.defs, cs⟩
      | [] => none

/-- Run the preprocessor over a header, starting from the definitions given on the
compiler command line; `none` when a conditional is left open or unbalanced. -/
def preprocess (predefined : Table) (hdr : List Directive) : Option Table :=
  (hdr.foldlM directive ⟨predefined, []⟩).bind fun s =>
    if s.conds.isEmpty then some s.defs else none

/-- Replace every defined name in a token list by its replacement list, rescanning
the replacement `fuel` levels deep. -/
def expand (tbl : Table) : Nat → List Tok → List Tok
  | 0, ts => ts
  | fuel + 1, ts =>
      ts.flatMap fun t =>
        match t with
        | ident x =>
            match tbl.lookup x with
            | some body => expand tbl fuel body
            | none => [t]
        | _ => [t]

/-! ## Constant expressions -/

/-- Largest value of the C type `int` on the target (32-bit two's complement). -/
def INT_MAX : Nat := 2 ^ 31 - 1

/-- Binding strength of the binary operators. -/
def prec : Tok → Nat
  | .star => 2
  | .slash => 2
  | .plus => 1
  | _ => 0

/-- Apply a binary operator to `int` operands `a` (left) and `b` (right); `none`
for division by zero, for a result that does not fit in `int`, and for a token
that is not an operator. -/
def applyOp : Tok → Nat → Nat → Option Nat
  | .star, a, b => if a * b ≤ INT_MAX then some (a * b) else none
  | .slash, a, b => if b = 0 then none else some (a / b)
  | .plus, a, b => if a + b ≤ INT_MAX then some (a + b) else none
  | _, _, _ => none

/-- Evaluator state: operand stack and operator stack (tops first), and whether
the next token has to start an operand (a literal or an open parenthesis) rather
than continue the expression (a binary operator or a closing parenthesis). -/
structure EvalState where
  vals : List Nat
  ops : List Tok
  operand : Bool
  deriving DecidableEq, Repr

/-- Apply the pending operators that bind at least as tightly as `p`, stopping at
an open parenthesis; the result is the new operand and operator stacks. -/
def reduce (p : Nat) : List Tok → List Nat → Option (List Nat × List Tok)
  | [], vals => some (vals, [])
  | lparen :: ops, vals => some (vals, lparen :: ops)
  | o :: ops, vals =>
      if p ≤ prec o then
        match vals with
        | b :: a :: rest => (applyOp o a b).bind fun v => reduce p ops (v :: rest)
        | _ => none
      else some (vals, o :: ops)

/-- Consume one token of an expanded expression; `none` for a token that cannot
stand at this place, for a name left without definition, for a literal that
does not fit in `int`, and for a failing operation. -/
def step (s : EvalState) : Tok → Option EvalState
  | num n =>
      if s.operand && decide (n ≤ INT_MAX) then some ⟨n :: s.vals, s.ops, false⟩ else none
  | ident _ => none
  | lparen => if s.operand then some ⟨s.vals, lparen :: s.ops, true⟩ else none
  | rparen =>
      if s.operand then none
      else
        (reduce 1 s.ops s.vals).bind fun r =>
          match r.2 with
          | lparen :: ops => some ⟨r.1, ops, false⟩
          | _ => none
  | o =>
      if s.operand then none
      else (reduce (prec o) s.ops s.vals).bind fun r => some ⟨r.1, o :: r.2, true⟩

/-- Value of an expanded constant expression: all tokens are consumed, the
expression is complete, and the pending operators leave exactly one value. -/
def evalToks (ts : List Tok) : Option Nat :=
  (ts.foldlM step ⟨[], [], true⟩).bind fun s =>
    if s.operand then none
    else
      (reduce 1 s.ops s.vals).bind fun r =>
        match r with
        | ([v], []) => some v
        | _ => none

/-! ## Build configurations and the capacity registry -/

/-- The two named build configurations. -/
inductive Config where
  | default
  | extended
  deriving DecidableEq, Repr

/-- Command-line definitions of a configuration: the extended build passes
`-DPDX_XV6`. -/
def Config.predefined : Config → Table
  | .default => []
  | .extended => [("PDX_XV6", [num 1])]

/-- Value of a constant expression written in terms of the names of `param.h`. -/
def evalC (cfg : Config) (ts : List Tok) : Option Nat :=
  (preprocess cfg.predefined param_h).bind fun tbl =>
    evalToks (expand tbl tbl.length ts)

/-- Value of a limit: the use of its name as an expression. -/
def get (cfg : Config) (name : String) : Option Nat :=
  evalC cfg [ident name]

/-- The names of the limits of the capacity table. -/
def limits : List String :=
  ["NPROC", "KERNEL_STACK_SIZE", "NCPU", "NOFILE", "NFILE", "NINODE", "NDEV",
   "ROOTDEV", "MAXARG", "MAXOPBLOCKS", "LOGSIZE", "NBUF", "FSSIZE"]

/-- Modelled from the spec: the capacity table as the value handed to the other
subsystems, one entry for each limit name.  The headers declare the limits only
as preprocessor names; no such table is declared in them. -/
structure Registry where
  NPROC : Nat
  KERNEL_STACK_SIZE : Nat
  NCPU : Nat
  NOFILE : Nat
  NFILE : Nat
  NINODE : Nat
  NDEV : Nat
  ROOTDEV : Nat
  MAXARG : Nat
  MAXOPBLOCKS : Nat
  LOGSIZE : Nat
  NBUF : Nat
  FSSIZE : Nat
  deriving DecidableEq, Repr

/-- The registry declared by `param.h` under a build configuration: every entry
is the value of the name of the same spelling. -/
def registry (cfg : Config) : Option Registry :=
  (get cfg "NPROC").bind fun nproc =>
  (get cfg "KERNEL_STACK_SIZE").bind fun kstack =>
  (get cfg "NCPU").bind fun ncpu =>
  (get cfg "NOFILE").bind fun nofile =>
  (get cfg "NFILE").bind fun nfile =>
  (get cfg "NINODE").bind fun ninode =>
  (get cfg "NDEV").bind fun ndev =>
  (get cfg "ROOTDEV").bind fun rootdev =>
  (get cfg "MAXARG").bind fun maxarg =>
  (get cfg "MAXOPBLOCKS").bind fun maxopblocks =>
  (get cfg "LOGSIZE").bind fun logsize =>
  (get cfg "NBUF").bind fun nbuf =>
  (get cfg "FSSIZE").bind fun fssize =>
  some ⟨nproc, kstack, ncpu, nofile, nfile, ninode, ndev, rootdev, maxarg,
        maxopblocks, logsize, nbuf, fssize⟩

/-- Modelled from the spec: the declared derivation relationships of the
registry, `LOGSIZE = 3 × MAXOPBLOCKS` and `NBUF = 3 × MAXOPBLOCKS`.  The headers
contain no validation code. -/
inductive Relationship where
  | LOGSIZE_eq_3_MAXOPBLOCKS
  | NBUF_eq_3_MAXOPBLOCKS
  deriving DecidableEq, Repr

/-- Modelled from the spec: whether a declared relationship holds in a registry. -/
def Relationship.holds (r : Registry) : Relationship → Bool
  | .LOGSIZE_eq_3_MAXOPBLOCKS => r.LOGSIZE == 3 * r.MAXOPBLOCKS
  | .NBUF_eq_3_MAXOPBLOCKS => r.NBUF == 3 * r.MAXOPBLOCKS

/-- Modelled from the spec: the relationships in the order in which the spec
declares them. -/
def relationships : List Relationship :=
  [.LOGSIZE_eq_3_MAXOPBLOCKS, .NBUF_eq_3_MAXOPBLOCKS]

/-- Modelled from the spec: the error of `validate()`, naming the violated
relationship. -/
structure ConsistencyError where
  violated : Relationship
  deriving DecidableEq, Repr

/-- Modelled from the spec: `validate() -> success | ConsistencyError` checks every
declared derivation relationship and returns a `ConsistencyError` naming the
first violated one.  The headers contain no such function. -/
def validate (r : Registry) : Except ConsistencyError Unit :=
  match relationships.find? fun rel => !rel.holds r with
  | some rel => .error ⟨rel⟩
  | none => .ok ()

/-! ## `mmu.h` -/

/-- Protection Enable. -/
def CR0_PE : Nat := 0x00000001
/-- Write Protect. -/
def CR0_WP : Nat := 0x00010000
/-- Paging. -/
def CR0_PG : Nat := 0x80000000

/-- Page size extension. -/
def CR4_PSE : Nat := 0x00000010

/-- Selector index of the kernel code segment. -/
def SEG_KCODE : Nat := 1
/-- Selector index of the kernel data and stack segment. -/
def SEG_KDATA : Nat := 2

/-! ## Bring-up controller -/

/-- Modelled from the spec: the states of the Bring-Up Controller (section 4.1).
The headers declare the flag masks and selector indices only; the controller
itself is not in them. -/
inductive Mode where
  | Unprotected
  | ProtectedFlat
  | ProtectedPaged
  | ProtectedPagedWriteProtected
  deriving DecidableEq, Repr

/-- Modelled from the spec: the processor state the controller mutates: control
register 0, the installed page-table root, and the selector indices at which a
flat ring-0 descriptor is installed. -/
structure Cpu where
  cr0 : Nat
  pgdir : Option Nat
  gdt : List Nat
  deriving DecidableEq, Repr

/-- Test of a flag mask in a register, as in the C expression `(reg & flag) != 0`. -/
def isSet (reg flag : Nat) : Bool := reg &&& flag != 0

/-- Modelled from the spec: the mode a processor state is in, read off the three
`CR0` flags; `none` for a combination that is not a state of the controller. -/
def Cpu.mode (c : Cpu) : Option Mode :=
  match isSet c.cr0 CR0_PE, isSet c.cr0 CR0_PG, isSet c.cr0 CR0_WP with
  | false, false, false => some .Unprotected
  | true, false, false => some .ProtectedFlat
  | true, true, false => some .ProtectedPaged
  | true, true, true => some .ProtectedPagedWriteProtected
  | _, _, _ => none

/-- Modelled from the spec: processor state at the start of the sequence. -/
def Cpu.reset : Cpu := ⟨0, none, []⟩

/-- Modelled from the spec: the steps of the sequence.  `enablePaging` carries the
page-table root that has been prepared, if any; `restart` is the whole-sequence
restart of a warm boot. -/
inductive Event where
  | enableProtection
  | enablePaging (root : Option Nat)
  | enableWriteProtect
  | restart
  deriving DecidableEq, Repr

/-- Modelled from the spec: the fatal error of a violated bring-up precondition. -/
inductive BootError where
  | HardwareSequenceViolation
  deriving DecidableEq, Repr

/-- Modelled from the spec: the transitions of section 4.1.
1. `Unprotected → ProtectedFlat`: install the flat kernel descriptors at the
   reserved selector indices and set Protection-Enable.
2. `ProtectedFlat → ProtectedPaged`: install a page-table root and set
   Paging-Enable; without a root the step is a violation.
3. `ProtectedPaged → ProtectedPagedWriteProtected`: set Write-Protect.
A step taken in any other state is a violation; a restart puts the processor back
at the start of the sequence. -/
def Cpu.step (c : Cpu) : Event → Except BootError Cpu
  | .enableProtection =>
      if c.mode = some .Unprotected then
        .ok ⟨c.cr0 ||| CR0_PE, c.pgdir, [SEG_KCODE, SEG_KDATA]⟩
      else .error .HardwareSequenceViolation
  | .enablePaging root =>
      match root with
      | some pt =>
          if c.mode = some .ProtectedFlat then
            .ok ⟨c.cr0 ||| CR0_PG, some pt, c.gdt⟩
          else .error .HardwareSequenceViolation
      | none => .error .HardwareSequenceViolation
  | .enableWriteProtect =>
      if c.mode = some .ProtectedPaged then
        .ok ⟨c.cr0 ||| CR0_WP, c.pgdir, c.gdt⟩
      else .error .HardwareSequenceViolation
  | .restart => .ok Cpu.reset

/-- Modelled from the spec: the processor states observed while the events are
applied in order from `c`; a violation halts the boot, which ends the trace. -/
def Cpu.trace (c : Cpu) : List Event → List Cpu
  | [] => [c]
  | e :: es =>
      c :: match c.step e with
           | .ok c1 => Cpu.trace c1 es
           | .error _ => []

/-! ## Lemmas on expansion and evaluation -/

theorem expand_append (tbl : Table) (fuel : Nat) (xs ys : List Tok) :
    expand tbl fuel (xs ++ ys) = expand tbl fuel xs ++ expand tbl fuel ys := by
  cases fuel with
  | zero => rfl
  | succ n => simp [expand, List.flatMap_append]

theorem expand_num (tbl : Table) (fuel n : Nat) :
    expand tbl fuel [num n] = [num n] := by
  cases fuel with
  | zero => rfl
  | succ k => simp [expand]

/-- In any evaluator state, the tokens `( 10 * 3 )` are consumed like the single
literal `30`: where an operand may start, the value 30 is pushed and the pending
operators are untouched; elsewhere both are rejected. -/
theorem foldlM_step_paren (s : EvalState) :
    [lparen, num 10, Tok.star, num 3, rparen].foldlM step s = [num 30].foldlM step s := by
  obtain ⟨vals, ops, operand⟩ := s
  cases operand <;> simp [List.foldlM, step, reduce, applyOp, prec, INT_MAX]

/-- The definition table of either configuration exists, and a use of `LOGSIZE`
or of `NBUF` expands to `( 10 * 3 )` in it. -/
theorem table_expand (cfg : Config) :
    ∃ tbl, preprocess cfg.predefined param_h = some tbl
      ∧ expand tbl tbl.length [ident "LOGSIZE"] = [lparen, num 10, Tok.star, num 3, rparen]
      ∧ expand tbl tbl.length [ident "NBUF"] = [lparen, num 10, Tok.star, num 3, rparen] := by
  cases cfg
  · exact ⟨_, rfl, by decide, by decide⟩
  · exact ⟨_, rfl, by decide, by decide⟩

/-- A token list that expands to `( 10 * 3 )` can be replaced by the literal `30`
inside any expression. -/
theorem evalToks_paren (tbl : Table) (fuel : Nat) (m : List Tok) (pre post : List Tok)
    (hm : expand tbl fuel m = [lparen, num 10, Tok.star, num 3, rparen]) :
    evalToks (expand tbl fuel (pre ++ m ++ post))
      = evalToks (expand tbl fuel (pre ++ [num 30] ++ post)) := by
  simp only [expand_append, hm, expand_num, evalToks, List.append_assoc, List.foldlM_append]
  simp only [foldlM_step_paren]

/-- The limit names are the names that `param.h` defines, in the order of their
first definition (`FSSIZE` is defined in both branches of the conditional). -/
theorem limits_defined :
    (param_h.filterMap fun d =>
        match d with
        | define name _ => some name
        | _ => none).eraseDups = limits := by
  decide

/-! ## Lemmas on flags and on the bring-up sequence -/

theorem or_eq_zero_iff (a b : Nat) : a ||| b = 0 ↔ a = 0 ∧ b = 0 := by
  constructor
  · intro h
    have hb : ∀ i, (a.testBit i || b.testBit i) = false := by
      intro i
      rw [← Nat.testBit_or, h, Nat.zero_testBit]
    constructor
    · apply Nat.eq_of_testBit_eq
      intro i
      have := hb i
      simp only [Bool.or_eq_false_iff] at this
      simp [this.1]
    · apply Nat.eq_of_testBit_eq
      intro i
      have := hb i
      simp only [Bool.or_eq_false_iff] at this
      simp [this.2]
  · rintro ⟨rfl, rfl⟩
    rfl

/-- A flag is set after OR-ing a mask into a register exactly when it was set
before or is part of the mask. -/
theorem isSet_or (reg mask flag : Nat) :
    isSet (reg ||| mask) flag = (isSet reg flag || isSet mask flag) := by
  unfold isSet
  rw [Nat.and_comm, Nat.and_or_distrib_left, Nat.and_comm flag reg, Nat.and_comm flag mask]
  rw [Bool.eq_iff_iff]
  simp only [bne_iff_ne, ne_eq, or_eq_zero_iff, Bool.or_eq_true]
  tauto

/-- In a state of the controller, Write-Protect implies Paging-Enable and
Paging-Enable implies Protection-Enable. -/
theorem flags_of_mode (c : Cpu) (m : Mode) (h : c.mode = some m) :
    (isSet c.cr0 CR0_WP = true → isSet c.cr0 CR0_PG = true)
    ∧ (isSet c.cr0 CR0_PG = true → isSet c.cr0 CR0_PE = true) := by
  unfold Cpu.mode at h
  cases h1 : isSet c.cr0 CR0_PE <;> cases h2 : isSet c.cr0 CR0_PG <;>
    cases h3 : isSet c.cr0 CR0_WP <;> simp_all

/-- A successful step either restarts the sequence or moves to the next state. -/
theorem step_mode (c c1 : Cpu) (e : Event) (h : c.step e = .ok c1) :
    c1.mode = some .Unprotected
    ∨ (c.mode = some .Unprotected ∧ c1.mode = some .ProtectedFlat)
    ∨ (c.mode = some .ProtectedFlat ∧ c1.mode = some .ProtectedPaged)
    ∨ (c.mode = some .ProtectedPaged ∧ c1.mode = some .ProtectedPagedWriteProtected) := by
  have hPE : isSet CR0_PE CR0_PE = true ∧ isSet CR0_PE CR0_PG = false
      ∧ isSet CR0_PE CR0_WP = false := by decide
  have hPG : isSet CR0_PG CR0_PE = false ∧ isSet CR0_PG CR0_PG = true
      ∧ isSet CR0_PG CR0_WP = false := by decide
  have hWP : isSet CR0_WP CR0_PE = false ∧ isSet CR0_WP CR0_PG = false
      ∧ isSet CR0_WP CR0_WP = true := by decide
  cases e with
  | enableProtection =>
      simp only [Cpu.step] at h
      split at h
      · rename_i hm
        injection h with h
        subst h
        refine Or.inr (Or.inl ⟨hm, ?_⟩)
        unfold Cpu.mode at hm ⊢
        simp only [isSet_or, hPE]
        cases h1 : isSet c.cr0 CR0_PE <;> cases h2 : isSet c.cr0 CR0_PG <;>
          cases h3 : isSet c.cr0 CR0_WP <;> simp_all
      · cases h
  | enablePaging root =>
      cases root with
      | none => simp [Cpu.step] at h
      | some pt =>
          simp only [Cpu.step] at h
          split at h
          · rename_i hm
            injection h with h
            subst h
            refine Or.inr (Or.inr (Or.inl ⟨hm, ?_⟩))
            unfold Cpu.mode at hm ⊢
            simp only [isSet_or, hPG]
            cases h1 : isSet c.cr0 CR0_PE <;> cases h2 : isSet c.cr0 CR0_PG <;>
              cases h3 : isSet c.cr0 CR0_WP <;> simp_all
          · cases h
  | enableWriteProtect =>
      simp only [Cpu.step] at h
      split at h
      · rename_i hm
        injection h with h
        subst h
        refine Or.inr (Or.inr (Or.inr ⟨hm, ?_⟩))
        unfold Cpu.mode at hm ⊢
        simp only [isSet_or, hWP]
        cases h1 : isSet c.cr0 CR0_PE <;> cases h2 : isSet c.cr0 CR0_PG <;>
          cases h3 : isSet c.cr0 CR0_WP <;> simp_all
      · cases h
  | restart =>
      simp only [Cpu.step] at h
      injection h with h
      subst h
      exact Or.inl (by decide)

theorem trace_head (c : Cpu) (es : List Event) : (c.trace es)[0]? = some c := by
  cases es <;> simp [Cpu.trace]

/-- Along a trace that starts in a state of the controller, every observed
processor state is a state of the controller, a write-protected state directly
follows a paged one, and a paged state directly follows a flat one. -/
theorem trace_steps (es : List Event) :
    ∀ c : Cpu, (∃ m, c.mode = some m) →
      (∀ s ∈ c.trace es, ∃ m, s.mode = some m)
      ∧ (∀ i, ((c.trace es)[i + 1]?).bind Cpu.mode = some .ProtectedPagedWriteProtected →
            ((c.trace es)[i]?).bind Cpu.mode = some .ProtectedPaged)
      ∧ (∀ i, ((c.trace es)[i + 1]?).bind Cpu.mode = some .ProtectedPaged →
            ((c.trace es)[i]?).bind Cpu.mode = some .ProtectedFlat) := by
  induction es with
  | nil =>
      intro c hc
      refine ⟨?_, ?_, ?_⟩
      · intro s hs
        simp only [Cpu.trace, List.mem_singleton] at hs
        subst hs
        exact hc
      · intro i h
        simp [Cpu.trace] at h
      · intro i h
        simp [Cpu.trace] at h
  | cons e es ih =>
      intro c hc
      cases hstep : c.step e with
      | error err =>
          refine ⟨?_, ?_, ?_⟩
          · intro s hs
            simp only [Cpu.trace, hstep, List.mem_singleton] at hs
            subst hs
            exact hc
          · intro i h
            simp [Cpu.trace, hstep] at h
          · intro i h
            simp [Cpu.trace, hstep] at h
      | ok c1 =>
          have hm := step_mode c c1 e hstep
          have hc1 : ∃ m, c1.mode = some m := by
            rcases hm with h | ⟨_, h⟩ | ⟨_, h⟩ | ⟨_, h⟩ <;> exact ⟨_, h⟩
          obtain ⟨ihA, ihB, ihC⟩ := ih c1 hc1
          have htr : c.trace (e :: es) = c :: c1.trace es := by
            simp [Cpu.trace, hstep]
          rw [htr]
          refine ⟨?_, ?_, ?_⟩
          · intro s hs
            rcases List.mem_cons.1 hs with rfl | hs
            · exact hc
            · exact ihA s hs
          · intro i h
            cases i with
            | zero =>
                simp only [List.getElem?_cons_succ, trace_head, Option.some_bind,
                  zero_add] at h
                simp only [List.getElem?_cons_zero, Option.some_bind]
                rcases hm with h1 | ⟨_, h1⟩ | ⟨_, h1⟩ | ⟨h2, _⟩
                · rw [h1] at h; cases h
                · rw [h1] at h; cases h
                · rw [h1] at h; cases h
                · exact h2
            | succ k =>
                simp only [List.getElem?_cons_succ] at h ⊢
                exact ihB k h
          · intro i h
            cases i with
            | zero =>
                simp only [List.getElem?_cons_succ, trace_head, Option.some_bind,
                  zero_add] at h
                simp only [List.getElem?_cons_zero, Option.some_bind]
                rcases hm with h1 | ⟨_, h1⟩ | ⟨h2, _⟩ | ⟨_, h1⟩
                · rw [h1] at h; cases h
                · rw [h1] at h; cases h
                · exact h2
                · rw [h1] at h; cases h
            | succ k =>
                simp only [List.getElem?_cons_succ] at h ⊢
                exact ihC k h

/-! ## The capacity limits of `param.h` -/

/-- C1: in both build configurations `LOGSIZE` and `NBUF` equal three times
`MAXOPBLOCKS`, which is 30 for `MAXOPBLOCKS = 10`; and because the replacement
lists are parenthesised, a use of either name inside any larger expression
evaluates like the literal `30` at that place (`2 * LOGSIZE` is 60, and
`100 / LOGSIZE` is 3, not `100 / 10 * 3`). -/
theorem LOGSIZE_NBUF_three_MAXOPBLOCKS (cfg : Config) (pre post : List Tok) :
    get cfg "MAXOPBLOCKS" = some 10
    ∧ get cfg "LOGSIZE" = (get cfg "MAXOPBLOCKS").map (fun m => 3 * m)
    ∧ get cfg "NBUF" = (get cfg "MAXOPBLOCKS").map (fun m => 3 * m)
    ∧ get cfg "LOGSIZE" = some 30
    ∧ get cfg "NBUF" = some 30
    ∧ evalC cfg [num 2, Tok.star, ident "LOGSIZE"] = some 60
    ∧ evalC cfg [num 2, Tok.star, ident "NBUF"] = some 60
    ∧ evalC cfg [num 100, slash, ident "LOGSIZE"] = some 3
    ∧ evalC cfg (pre ++ [ident "LOGSIZE"] ++ post) = evalC cfg (pre ++ [num 30] ++ post)
    ∧ evalC cfg (pre ++ [ident "NBUF"] ++ post) = evalC cfg (pre ++ [num 30] ++ post) := by
  refine ⟨?_, ?_, ?_, ?_, ?_, ?_, ?_, ?_, ?_, ?_⟩
  · cases cfg <;> decide
  · cases cfg <;> decide
  · cases cfg <;> decide
  · cases cfg <;> decide
  · cases cfg <;> decide
  · cases cfg <;> decide
  · cases cfg <;> decide
  · cases cfg <;> decide
  · obtain ⟨tbl, htbl, hL, _⟩ := table_expand cfg
    simp only [evalC, htbl, Option.some_bind]
    exact evalToks_paren tbl tbl.length [ident "LOGSIZE"] pre post hL
  · obtain ⟨tbl, htbl, _, hN⟩ := table_expand cfg
    simp only [evalC, htbl, Option.some_bind]
    exact evalToks_paren tbl tbl.length [ident "NBUF"] pre post hN

/-- C2: `FSSIZE` is 2000 in the extended configuration (`PDX_XV6` defined) and
1000 in the default one, and every other limit of the table has the same value
in both configurations. -/
theorem FSSIZE_by_config (n : String) (hn : n ∈ limits) (hne : n ≠ "FSSIZE") :
    get .extended "FSSIZE" = some 2000
    ∧ get .default "FSSIZE" = some 1000
    ∧ get .extended n = get .default n := by
  refine ⟨by decide, by decide, ?_⟩
  revert n
  decide

/-- The limit `NBUF` has the same value in both configurations. -/
theorem FSSIZE_by_config_witness :
    get .extended "FSSIZE" = some 2000
    ∧ get .default "FSSIZE" = some 1000
    ∧ get .extended "NBUF" = get .default "NBUF" :=
  FSSIZE_by_config "NBUF" (by decide) (by decide)

/-- C3: the lookup of `NPROC` in the default configuration gives exactly 64, and
a lookup is determined by the configuration and the name: lookups of the same
name in the same configuration give the same value, however often repeated. -/
theorem get_NPROC_stable (c₁ c₂ : Config) (n₁ n₂ : String) (k : Nat)
    (hc : c₁ = c₂) (hn : n₁ = n₂) :
    get .default "NPROC" = some 64
    ∧ get c₁ n₁ = get c₂ n₂
    ∧ (List.replicate k n₁).map (get c₁) = List.replicate k (get c₂ n₂) := by
  subst hc hn
  exact ⟨by decide, rfl, List.map_replicate⟩

/-- Three successive lookups of `NPROC` in the default configuration. -/
theorem get_NPROC_stable_witness :
    get .default "NPROC" = some 64
    ∧ get .default "NPROC" = get .default "NPROC"
    ∧ (List.replicate 3 "NPROC").map (get .default)
        = List.replicate 3 (get .default "NPROC") :=
  get_NPROC_stable .default .default "NPROC" "NPROC" 3 rfl rfl

/-- C4: in both configurations every limit of the table has a value, and the
value is strictly positive. -/
theorem limits_positive (cfg : Config) (n : String) (hn : n ∈ limits) :
    ∃ v, get cfg n = some v ∧ 0 < v := by
  have h : ∀ c : Config, ∀ m ∈ limits, ((get c m).any fun v => decide (0 < v)) = true := by
    intro c
    cases c <;> decide
  have hn := h cfg n hn
  cases hg : get cfg n with
  | none => simp [hg] at hn
  | some v => exact ⟨v, rfl, by simpa [hg] using hn⟩

/-- The smallest limit, `ROOTDEV`, in the extended configuration. -/
theorem limits_positive_witness : ∃ v, get .extended "ROOTDEV" = some v ∧ 0 < v :=
  limits_positive .extended "ROOTDEV" (by decide)

/-- C5: in both configurations `FSSIZE` is strictly greater than `LOGSIZE`. -/
theorem FSSIZE_gt_LOGSIZE (cfg : Config) :
    ∃ fssize logsize,
      get cfg "FSSIZE" = some fssize ∧ get cfg "LOGSIZE" = some logsize
        ∧ logsize < fssize := by
  cases cfg
  · exact ⟨1000, 30, by decide, by decide, by decide⟩
  · exact ⟨2000, 30, by decide, by decide, by decide⟩

/-- C10: in both configurations the per-process open-file limit `NOFILE` does not
exceed the system-wide open-file limit `NFILE`. -/
theorem NOFILE_le_NFILE (cfg : Config) :
    ∃ nofile nfile,
      get cfg "NOFILE" = some nofile ∧ get cfg "NFILE" = some nfile
        ∧ nofile ≤ nfile := by
  cases cfg <;> exact ⟨16, 100, by decide, by decide, by decide⟩

/-! ## Validation of the registry -/

/-- C6: on any registry in which `LOGSIZE ≠ 3 * MAXOPBLOCKS` or
`NBUF ≠ 3 * MAXOPBLOCKS`, `validate` returns the `ConsistencyError` naming the
first violated relationship and does not return success; on the registry
declared by `param.h`, in either configuration, it returns success, and on that
registry with the journal size set to `MAXOPBLOCKS` it returns the error naming
the `LOGSIZE` relationship. -/
theorem validate_first_violated (r : Registry)
    (h : r.LOGSIZE ≠ 3 * r.MAXOPBLOCKS ∨ r.NBUF ≠ 3 * r.MAXOPBLOCKS) :
    validate r
        = .error ⟨if r.LOGSIZE ≠ 3 * r.MAXOPBLOCKS then .LOGSIZE_eq_3_MAXOPBLOCKS
                  else .NBUF_eq_3_MAXOPBLOCKS⟩
    ∧ validate r ≠ .ok ()
    ∧ ∀ cfg : Config, ∃ r0, registry cfg = some r0 ∧ validate r0 = .ok ()
        ∧ validate { r0 with LOGSIZE := r0.MAXOPBLOCKS }
            = .error ⟨.LOGSIZE_eq_3_MAXOPBLOCKS⟩ := by
  have hv : validate r
      = .error ⟨if r.LOGSIZE ≠ 3 * r.MAXOPBLOCKS then .LOGSIZE_eq_3_MAXOPBLOCKS
                else .NBUF_eq_3_MAXOPBLOCKS⟩ := by
    by_cases h1 : r.LOGSIZE = 3 * r.MAXOPBLOCKS
    · have h2 : r.NBUF ≠ 3 * r.MAXOPBLOCKS := by
        rcases h with h | h
        · exact absurd h1 h
        · exact h
      have hb1 : (r.LOGSIZE == 3 * r.MAXOPBLOCKS) = true := beq_iff_eq.2 h1
      have hb2 : (r.NBUF == 3 * r.MAXOPBLOCKS) = false := beq_eq_false_iff_ne.2 h2
      simp [validate, relationships, Relationship.holds, List.find?, h1, hb1, hb2]
    · have hb1 : (r.LOGSIZE == 3 * r.MAXOPBLOCKS) = false := beq_eq_false_iff_ne.2 h1
      simp [validate, relationships, Relationship.holds, List.find?, h1, hb1]
  refine ⟨hv, ?_, ?_⟩
  · rw [hv]
    intro hc
    cases hc
  · intro cfg
    cases cfg
    · exact ⟨_, rfl, rfl, rfl⟩
    · exact ⟨_, rfl, rfl, rfl⟩

/-- The default registry with the journal size set to `MAXOPBLOCKS`. -/
theorem validate_first_violated_witness :
    validate ⟨64, 16384, 8, 16, 100, 50, 10, 1, 32, 10, 10, 30, 1000⟩
        = .error ⟨.LOGSIZE_eq_3_MAXOPBLOCKS⟩
    ∧ validate ⟨64, 16384, 8, 16, 100, 50, 10, 1, 32, 10, 10, 30, 1000⟩ ≠ .ok () :=
  have h := validate_first_violated ⟨64, 16384, 8, 16, 100, 50, 10, 1, 32, 10, 10, 30, 1000⟩
    (Or.inl (by decide))
  ⟨h.1, h.2.1⟩

/-! ## The constants of `mmu.h` -/

/-- C8: each control-register flag is a mask with exactly one bit set (bit 0 for
`CR0_PE`, bit 16 for `CR0_WP`, bit 31 for `CR0_PG`, bit 4 for `CR4_PSE`) and fits
in a 32-bit register; the three `CR0` flags are pairwise disjoint, so their
bitwise OR equals their sum, `0x80010001`, which is below `2 ^ 32`. -/
theorem control_flags_single_bit (i : Nat) :
    (CR0_PE.testBit i = decide (i = 0) ∧ CR0_WP.testBit i = decide (i = 16)
      ∧ CR0_PG.testBit i = decide (i = 31) ∧ CR4_PSE.testBit i = decide (i = 4))
    ∧ (CR0_PE = 2 ^ 0 ∧ CR0_WP = 2 ^ 16 ∧ CR0_PG = 2 ^ 31 ∧ CR4_PSE = 2 ^ 4)
    ∧ (CR0_PE < 2 ^ 32 ∧ CR0_WP < 2 ^ 32 ∧ CR0_PG < 2 ^ 32 ∧ CR4_PSE < 2 ^ 32)
    ∧ (CR0_PE &&& CR0_WP = 0 ∧ CR0_PE &&& CR0_PG = 0 ∧ CR0_WP &&& CR0_PG = 0)
    ∧ CR0_PE ||| CR0_WP ||| CR0_PG = CR0_PE + CR0_WP + CR0_PG
    ∧ CR0_PE + CR0_WP + CR0_PG < 2 ^ 32
    ∧ CR0_PE ||| CR0_WP ||| CR0_PG = 0x80010001 := by
  have hPE : CR0_PE = 2 ^ 0 := by decide
  have hWP : CR0_WP = 2 ^ 16 := by decide
  have hPG : CR0_PG = 2 ^ 31 := by decide
  have hPSE : CR4_PSE = 2 ^ 4 := by decide
  refine ⟨⟨?_, ?_, ?_, ?_⟩, ⟨hPE, hWP, hPG, hPSE⟩, by decide, by decide, by decide,
    by decide, by decide⟩
  · rw [hPE, Nat.testBit_two_pow]
    exact decide_eq_decide.2 eq_comm
  · rw [hWP, Nat.testBit_two_pow]
    exact decide_eq_decide.2 eq_comm
  · rw [hPG, Nat.testBit_two_pow]
    exact decide_eq_decide.2 eq_comm
  · rw [hPSE, Nat.testBit_two_pow]
    exact decide_eq_decide.2 eq_comm

/-- C9: the two kernel segment selector indices are distinct and neither is the
null descriptor index 0: `SEG_KCODE` is 1 and `SEG_KDATA` is 2. -/
theorem kernel_selectors_distinct :
    SEG_KCODE ≠ SEG_KDATA ∧ SEG_KCODE ≠ 0 ∧ SEG_KDATA ≠ 0
    ∧ SEG_KCODE = 1 ∧ SEG_KDATA = 2 := by
  decide

/-! ## Order of the bring-up sequence -/

/-- C7: in every trace of the controller that starts in `Unprotected`, a state
`ProtectedPagedWriteProtected` is observed only after a state `ProtectedPaged`
and a state `ProtectedPaged` only after a state `ProtectedFlat`; and in every
observed processor state, `CR0_WP` set implies `CR0_PG` set and `CR0_PG` set
implies `CR0_PE` set. -/
theorem bringup_monotonic (c : Cpu) (es : List Event) (h0 : c.mode = some .Unprotected) :
    (∀ i, ((c.trace es)[i]?).bind Cpu.mode = some .ProtectedPagedWriteProtected →
        ∃ j : Nat, j < i ∧ ((c.trace es)[j]?).bind Cpu.mode = some .ProtectedPaged)
    ∧ (∀ i, ((c.trace es)[i]?).bind Cpu.mode = some .ProtectedPaged →
        ∃ j : Nat, j < i ∧ ((c.trace es)[j]?).bind Cpu.mode = some .ProtectedFlat)
    ∧ (∀ s ∈ c.trace es,
        (isSet s.cr0 CR0_WP = true → isSet s.cr0 CR0_PG = true)
        ∧ (isSet s.cr0 CR0_PG = true → isSet s.cr0 CR0_PE = true)) := by
  obtain ⟨hA, hB, hC⟩ := trace_steps es c ⟨_, h0⟩
  refine ⟨?_, ?_, ?_⟩
  · intro i h
    cases i with
    | zero =>
        rw [trace_head, Option.some_bind, h0] at h
        cases h
    | succ k => exact ⟨k, Nat.lt_succ_self k, hB k h⟩
  · intro i h
    cases i with
    | zero =>
        rw [trace_head, Option.some_bind, h0] at h
        cases h
    | succ k => exact ⟨k, Nat.lt_succ_self k, hC k h⟩
  · intro s hs
    obtain ⟨m, hm⟩ := hA s hs
    exact flags_of_mode s m hm

/-- The full sequence from the reset state, which visits the four states in order. -/
theorem bringup_monotonic_witness :
    (Cpu.reset.trace [.enableProtection, .enablePaging (some 4096), .enableWriteProtect]).map
        Cpu.mode
      = [some .Unprotected, some .ProtectedFlat, some .ProtectedPaged,
         some .ProtectedPagedWriteProtected]
    ∧ ∀ s ∈ Cpu.reset.trace [.enableProtection, .enablePaging (some 4096), .enableWriteProtect],
        (isSet s.cr0 CR0_WP = true → isSet s.cr0 CR0_PG = true)
        ∧ (isSet s.cr0 CR0_PG = true → isSet s.cr0 CR0_PE = true) :=
  ⟨by decide,
   (bringup_monotonic Cpu.reset
      [.enableProtection, .enablePaging (some 4096), .enableWriteProtect] (by decide)).2.2⟩

end Xv6
